import Mathlib

/-!
A verification development for a Go pipeline library consisting of three
concurrent stages: a fixed-size worker pool (`fixedPool`), a dynamically
throttled worker pool (`dynamicPool`, bounded by a token/permit channel), and a
broadcast replicator (`broadcast`).  The Go source is shallowly embedded:

* items (`Data`) are modelled as natural-number references, so that `Clone`
  can be modelled as allocation of a fresh reference from a counter and
  payload mutation as update of a heap indexed by references;
* a `Task` is its `Process` function, modelled as a pure function from an
  item to the pair (optional output item, optional error) it returns;
* each stage's `Run` is modelled as a labelled small-step transition system
  over an explicit state record; goroutines, channel operations and `select`
  branches become individual, interleavable transitions;
* the body of a concurrent unit spawned by the dynamic pool is a local
  transition relation `WStep` on worker program counters, reused verbatim
  inside the global transition system of `dynamicPool.Run`.
-/

namespace Pipeline

/-! ## Data model -/

/-- An item reference flowing through the pipeline.  `Clone` yields a fresh
reference, so references are modelled as naturals drawn from a counter. -/
abbrev Data := Nat

/-- Errors are the strings produced by `fmt.Errorf`. -/
abbrev Err := String

/-- A `Task` is its `Process(ctx, data) (Data, error)` method, modelled as a
pure function of the item (the context is only used for cancellation inside
the plumbing, which the transition systems model explicitly). -/
abbrev Task := Data → Option Data × Option Err

/-- `fmt.Errorf("pipeline stage %d: %v", sp.Position(), err)` -/
def wrapError (pos : Nat) (e : Err) : Err :=
  "pipeline stage " ++ toString pos ++ ": " ++ e

/-- A payload heap: the mutable payload reachable from each item reference. -/
def Heap := Data → Nat

/-- Mutating the payload behind reference `r` to value `v`. -/
def hwrite (h : Heap) (r : Data) (v : Nat) : Heap :=
  fun r' => if r' = r then v else h r'

/-! ## Stage constructors (pool.go, bcast.go)

`FIFO` is the external sequential-stage adapter (out of the core's scope);
only the fact that it wraps one task matters to the constructors. -/

/-- Modelled from the spec: the sequential single-worker stage adapter
`make_stage(transform) -> Stage`; its internals are external to this core,
so it is modelled as an opaque wrapper of its task. -/
structure FIFOStage where
  task : Task

/-- Modelled from the spec: `FIFO(task)` builds the sequential stage wrapping
`task`. -/
def FIFO (t : Task) : FIFOStage := ⟨t⟩

/-- `type fixedPool struct { fifos []Stage }` -/
structure fixedPool where
  fifos : List FIFOStage

/-- `func FixedPool(task Task, num int) Stage`: returns nil (modelled `none`)
for `num <= 0`, otherwise a pool of `num` FIFO replicas of `task`. -/
def FixedPool (task : Task) (num : Int) : Option fixedPool :=
  if num ≤ 0 then none
  else some ⟨(List.range num.toNat).map (fun _ => FIFO task)⟩

/-- `type dynamicPool struct { task Task; tokenPool chan struct{} }`.
The token channel is modelled by its capacity together with the number of
tokens it currently holds. -/
structure dynamicPool where
  task : Task
  tokenCap : Nat
  tokenPool : Nat

/-- `func DynamicPool(task Task, max int) Stage`: returns nil (modelled
`none`) for `max <= 0`, otherwise a stage whose token channel has capacity
`max` and is pre-filled with `max` tokens. -/
def DynamicPool (task : Task) (max : Int) : Option dynamicPool :=
  if max ≤ 0 then none
  else some ⟨task, max.toNat, max.toNat⟩

/-- `type broadcast struct { fifos []Stage }` -/
structure broadcast where
  fifos : List FIFOStage

/-- `func Broadcast(tasks ...Task) Stage`: returns nil (modelled `none`) for
an empty task list, otherwise one FIFO replica per task. -/
def Broadcast (tasks : List Task) : Option broadcast :=
  if tasks.length = 0 then none
  else some ⟨tasks.map FIFO⟩

/-! ## The dynamic pool's concurrent unit (pool.go lines 84-104)

One goroutine per accepted item.  Its program counter: -/

/-- Program counter of one concurrent unit of the dynamic pool. -/
inductive WPC where
  /-- about to call `p.task.Process(ctx, dataIn)` -/
  | process (d : Data)
  /-- about to `select` between `sp.Output() <- dataOut` and `ctx.Done()` -/
  | write (o : Data)
  /-- body done; the deferred `p.tokenPool <- token` is still pending -/
  | release
  /-- goroutine exited -/
  | gone
  deriving DecidableEq, Repr

/-- The observable effects of one worker transition. -/
structure WEff where
  /-- items sent on `sp.Output()` -/
  emits : List Data
  /-- errors appended to `sp.Error()` -/
  errs : List Err
  /-- items on which `MarkAsProcessed` was called -/
  processed : List Data
  /-- tokens returned to `p.tokenPool` -/
  released : Nat
  deriving DecidableEq, Repr

/-- The no-effect value. -/
def WEff.zero : WEff := ⟨[], [], [], 0⟩

/-- Sequential composition of effects. -/
def WEff.add (a b : WEff) : WEff :=
  ⟨a.emits ++ b.emits, a.errs ++ b.errs, a.processed ++ b.processed,
    a.released + b.released⟩

/-- One transition of a dynamic-pool worker goroutine.  `cancelled` is the
current state of `ctx.Done()` at the moment of the step. -/
inductive WStep (task : Task) (pos : Nat) : Bool → WPC → WEff → WPC → Prop where
  /-- `Process` returned an error: wrap it with the stage position, append it
  to the error sink and `return` (the deferred release still runs). -/
  | procErr {c : Bool} {d : Data} {out : Option Data} {e : Err} :
      task d = (out, some e) →
      WStep task pos c (.process d) ⟨[], [wrapError pos e], [], 0⟩ .release
  /-- `Process` returned `(nil, nil)`: mark the input item processed and
  `return`. -/
  | procNil {c : Bool} {d : Data} :
      task d = (none, none) →
      WStep task pos c (.process d) ⟨[], [], [d], 0⟩ .release
  /-- `Process` returned data: go on to the output `select`. -/
  | procOut {c : Bool} {d o : Data} :
      task d = (some o, none) →
      WStep task pos c (.process d) WEff.zero (.write o)
  /-- the `select` sends `dataOut` on `sp.Output()`. -/
  | writeOk {c : Bool} {o : Data} :
      WStep task pos c (.write o) ⟨[o], [], [], 0⟩ .release
  /-- the `select` observes `ctx.Done()`: the output is dropped. -/
  | writeCancel {o : Data} :
      WStep task pos true (.write o) WEff.zero .release
  /-- the deferred `p.tokenPool <- token` runs and the goroutine exits. -/
  | releaseTok {c : Bool} :
      WStep task pos c .release ⟨[], [], [], 1⟩ .gone

/-- A finite execution of one worker, recording the cancellation flag seen at
each step and the accumulated effects. -/
inductive WPath (task : Task) (pos : Nat) : WPC → List Bool → WEff → WPC → Prop where
  | nil (w : WPC) : WPath task pos w [] WEff.zero w
  | cons {w w' w'' : WPC} {e es : WEff} {cs : List Bool} (c : Bool) :
      WStep task pos c w e w' → WPath task pos w' cs es w'' →
      WPath task pos w (c :: cs) (WEff.add e es) w''

theorem WEff.add_zero (a : WEff) : WEff.add a WEff.zero = a := by
  cases a; simp [WEff.add, WEff.zero]

theorem WEff.zero_add (a : WEff) : WEff.add WEff.zero a = a := by
  cases a; simp [WEff.add, WEff.zero]

/-- `gone` is terminal: an exited goroutine takes no further step. -/
theorem wstep_gone_none {task : Task} {pos : Nat} {c : Bool} {e : WEff} {w : WPC} :
    ¬ WStep task pos c .gone e w := by
  intro h; cases h

theorem wpath_gone {task : Task} {pos : Nat} {cs : List Bool} {eff : WEff} {w : WPC}
    (h : WPath task pos .gone cs eff w) : w = .gone ∧ eff = WEff.zero := by
  cases h with
  | nil => exact ⟨rfl, rfl⟩
  | cons c hs _ => exact absurd hs wstep_gone_none

/-- From `release` the only complete execution is the single deferred token
return. -/
theorem wpath_release {task : Task} {pos : Nat} {cs : List Bool} {eff : WEff}
    (h : WPath task pos .release cs eff .gone) : eff = ⟨[], [], [], 1⟩ := by
  cases h with
  | cons c hs ht =>
    cases hs
    obtain ⟨-, h0⟩ := wpath_gone ht
    subst h0
    simp [WEff.add_zero]

/-- Complete executions from the output `select`: either the item is emitted,
or cancellation was observed and the item dropped. -/
theorem wpath_write {task : Task} {pos : Nat} {o : Data} {cs : List Bool} {eff : WEff}
    (h : WPath task pos (.write o) cs eff .gone) :
    eff = ⟨[o], [], [], 1⟩ ∨ (eff = ⟨[], [], [], 1⟩ ∧ cs.contains true) := by
  cases h with
  | cons c hs ht =>
    cases hs with
    | writeOk =>
      left
      rw [wpath_release ht]
      simp [WEff.add]
    | writeCancel =>
      right
      rw [wpath_release ht]
      exact ⟨by simp [WEff.add, WEff.zero], by simp⟩

/-- Complete executions from the start of the worker body, classified by the
outcome of `Process`. -/
theorem wpath_process_err {task : Task} {pos : Nat} {d : Data} {out : Option Data}
    {e : Err} {cs : List Bool} {eff : WEff}
    (htask : task d = (out, some e))
    (h : WPath task pos (.process d) cs eff .gone) :
    eff = ⟨[], [wrapError pos e], [], 1⟩ := by
  cases h with
  | cons c hs ht =>
    cases hs with
    | procErr h1 =>
      rw [htask] at h1
      obtain ⟨-, h2⟩ := Prod.mk.injEq .. ▸ h1
      cases h2
      rw [wpath_release ht]
      simp [WEff.add]
    | procNil h1 => rw [htask] at h1; cases h1
    | procOut h1 => rw [htask] at h1; simp at h1

theorem wpath_process_none {task : Task} {pos : Nat} {d : Data}
    {cs : List Bool} {eff : WEff}
    (htask : task d = (none, none))
    (h : WPath task pos (.process d) cs eff .gone) :
    eff = ⟨[], [], [d], 1⟩ := by
  cases h with
  | cons c hs ht =>
    cases hs with
    | procErr h1 => rw [htask] at h1; cases h1
    | procNil h1 =>
      rw [wpath_release ht]
      simp [WEff.add]
    | procOut h1 => rw [htask] at h1; simp at h1

theorem wpath_process_some {task : Task} {pos : Nat} {d o : Data}
    {cs : List Bool} {eff : WEff}
    (htask : task d = (some o, none))
    (h : WPath task pos (.process d) cs eff .gone) :
    eff = ⟨[o], [], [], 1⟩ ∨ (eff = ⟨[], [], [], 1⟩ ∧ cs.contains true) := by
  cases h with
  | cons c hs ht =>
    cases hs with
    | procErr h1 => rw [htask] at h1; simp at h1
    | procNil h1 => rw [htask] at h1; simp at h1
    | procOut h1 =>
      rw [htask] at h1
      obtain ⟨h2, -⟩ := Prod.mk.injEq .. ▸ h1
      cases Option.some.injEq .. ▸ h2
      rcases wpath_write ht with he | ⟨he, hc⟩
      · left; rw [he]; simp [WEff.add, WEff.zero]
      · right
        refine ⟨?_, by simp; exact Or.inr (by simpa using hc)⟩
        rw [he]; simp [WEff.add, WEff.zero]

/-- A complete worker execution releases its token exactly once, whatever the
outcome of `Process` and of the output race. -/
theorem wpath_released_once {task : Task} {pos : Nat} {d : Data}
    {cs : List Bool} {eff : WEff}
    (h : WPath task pos (.process d) cs eff .gone) :
    eff.released = 1 := by
  rcases h1 : task d with ⟨out, err⟩
  match out, err with
  | out, some e => rw [wpath_process_err h1 h]
  | none, none => rw [wpath_process_none h1 h]
  | some o, none =>
    rcases wpath_process_some h1 h with he | ⟨he, -⟩ <;> rw [he]

/-! ## dynamicPool.Run (pool.go lines 66-112) as a transition system -/

/-- Program counter of the `Run` goroutine of the dynamic pool. -/
inductive MPC where
  /-- head of the accept loop: `select` on `ctx.Done()` / `sp.Input()` -/
  | loop
  /-- an item was received: `select` on `p.tokenPool` / `ctx.Done()` -/
  | acquire (d : Data)
  /-- the drain loop, `i` tokens already reclaimed -/
  | drain (i : Nat)
  /-- `Run` has returned -/
  | done
  deriving DecidableEq, Repr

/-- Global state of one invocation of `dynamicPool.Run` together with its
environment (input feed contents, cancellation flag, spawned goroutines). -/
structure DState where
  /-- items still to be delivered by the input feed (empty = feed closed) -/
  input : List Data
  /-- whether `ctx.Done()` is closed -/
  cancelled : Bool
  /-- number of tokens currently buffered in `p.tokenPool` -/
  tokens : Nat
  /-- program counter of `Run` itself -/
  main : MPC
  /-- program counters of the worker goroutines, in spawn order -/
  workers : List WPC
  /-- items delivered on `sp.Output()` so far -/
  output : List Data
  /-- errors appended to `sp.Error()` so far -/
  errs : List Err
  /-- items on which `MarkAsProcessed` was called so far -/
  processed : List Data

/-- Static data of a run: the task, the stage position `sp.Position()`, and
`cap(p.tokenPool)`. -/
structure DCfg where
  task : Task
  pos : Nat
  cap : Nat

/-- Transition labels of `dynamicPool.Run`. -/
inductive DEv where
  | cancel
  | recvCancel
  | recvClosed
  | recv (d : Data)
  | acq (d : Data)
  | acqCancel (d : Data)
  | drainTok (i : Nat)
  | drainDone (i : Nat)
  | work (j : Nat) (e : WEff)

/-- One interleaved transition of `dynamicPool.Run`, of a worker goroutine,
or of the environment (cancellation).  State fields, in order: input feed,
cancelled, tokens, main pc, workers, output, errs, processed. -/
inductive DStep (cfg : DCfg) : DState → DEv → DState → Prop where
  /-- the environment cancels the context. -/
  | cancel {inp : List Data} {tok : Nat} {mn : MPC} {ws : List WPC}
      {out : List Data} {er : List Err} {pr : List Data} :
      DStep cfg ⟨inp, false, tok, mn, ws, out, er, pr⟩ .cancel
        ⟨inp, true, tok, mn, ws, out, er, pr⟩
  /-- accept loop: `case <-ctx.Done(): break loop`. -/
  | recvCancel {inp : List Data} {tok : Nat} {ws : List WPC}
      {out : List Data} {er : List Err} {pr : List Data} :
      DStep cfg ⟨inp, true, tok, .loop, ws, out, er, pr⟩ .recvCancel
        ⟨inp, true, tok, .drain 0, ws, out, er, pr⟩
  /-- accept loop: `case dataIn, ok := <-sp.Input()` with `ok = false`
  (the input feed is closed). -/
  | recvClosed {cnl : Bool} {tok : Nat} {ws : List WPC}
      {out : List Data} {er : List Err} {pr : List Data} :
      DStep cfg ⟨[], cnl, tok, .loop, ws, out, er, pr⟩ .recvClosed
        ⟨[], cnl, tok, .drain 0, ws, out, er, pr⟩
  /-- accept loop: an item arrives on `sp.Input()`. -/
  | recv {d : Data} {rest : List Data} {cnl : Bool} {tok : Nat}
      {ws : List WPC} {out : List Data} {er : List Err} {pr : List Data} :
      DStep cfg ⟨d :: rest, cnl, tok, .loop, ws, out, er, pr⟩ (.recv d)
        ⟨rest, cnl, tok, .acquire d, ws, out, er, pr⟩
  /-- `case token = <-p.tokenPool`: a token is taken and the worker goroutine
  launched for the item. -/
  | acq {d : Data} {inp : List Data} {cnl : Bool} {t : Nat}
      {ws : List WPC} {out : List Data} {er : List Err} {pr : List Data} :
      DStep cfg ⟨inp, cnl, t + 1, .acquire d, ws, out, er, pr⟩ (.acq d)
        ⟨inp, cnl, t, .loop, ws ++ [.process d], out, er, pr⟩
  /-- `case <-ctx.Done(): break loop` while waiting for a token: the item is
  abandoned. -/
  | acqCancel {d : Data} {inp : List Data} {tok : Nat}
      {ws : List WPC} {out : List Data} {er : List Err} {pr : List Data} :
      DStep cfg ⟨inp, true, tok, .acquire d, ws, out, er, pr⟩ (.acqCancel d)
        ⟨inp, true, tok, .drain 0, ws, out, er, pr⟩
  /-- drain loop body: `<-p.tokenPool`. -/
  | drainTok {i t : Nat} {inp : List Data} {cnl : Bool}
      {ws : List WPC} {out : List Data} {er : List Err} {pr : List Data} :
      i < cfg.cap →
      DStep cfg ⟨inp, cnl, t + 1, .drain i, ws, out, er, pr⟩ (.drainTok i)
        ⟨inp, cnl, t, .drain (i + 1), ws, out, er, pr⟩
  /-- drain loop guard fails (`i >= cap(p.tokenPool)`): `Run` returns. -/
  | drainDone {i : Nat} {inp : List Data} {cnl : Bool} {tok : Nat}
      {ws : List WPC} {out : List Data} {er : List Err} {pr : List Data} :
      cfg.cap ≤ i →
      DStep cfg ⟨inp, cnl, tok, .drain i, ws, out, er, pr⟩ (.drainDone i)
        ⟨inp, cnl, tok, .done, ws, out, er, pr⟩
  /-- one step of worker goroutine `j`. -/
  | work {j : Nat} {w w' : WPC} {e : WEff} {inp : List Data} {cnl : Bool}
      {tok : Nat} {mn : MPC} {ws : List WPC} {out : List Data}
      {er : List Err} {pr : List Data} :
      ws.get? j = some w →
      WStep cfg.task cfg.pos cnl w e w' →
      DStep cfg ⟨inp, cnl, tok, mn, ws, out, er, pr⟩ (.work j e)
        ⟨inp, cnl, tok + e.released, mn, ws.set j w', out ++ e.emits,
          er ++ e.errs, pr ++ e.processed⟩

/-- Reachability under interleaved steps. -/
def DReach (cfg : DCfg) : DState → DState → Prop :=
  Relation.ReflTransGen (fun s s' => ∃ ev, DStep cfg s ev s')

/-- Initial state of `p.Run(ctx, sp)`: nothing cancelled, no workers, the
token channel as the constructor filled it. -/
def dInit (p : dynamicPool) (input : List Data) : DState :=
  ⟨input, false, p.tokenPool, .loop, [], [], [], []⟩

/-- A goroutine that has not yet exited. -/
def isAlive : WPC → Bool
  | .process _ => true
  | .write _ => true
  | .release => true
  | .gone => false

/-- Number of worker goroutines that are still running (each of them holds
exactly one token, taken at launch and produced back at its final step). -/
def aliveCount (ws : List WPC) : Nat := ws.countP isAlive

/-- Tokens already reclaimed by the shutdown drain loop. -/
def drainedOf (cap : Nat) : MPC → Nat
  | .loop => 0
  | .acquire _ => 0
  | .drain i => i
  | .done => cap

/-- Token conservation: every token is either buffered in the channel, held
by a live worker, or already swallowed by the drain loop. -/
def dInv (cfg : DCfg) (s : DState) : Prop :=
  s.tokens + aliveCount s.workers + drainedOf cfg.cap s.main = cfg.cap

theorem countP_set_eq (p : WPC → Bool) :
    ∀ (l : List WPC) (j : Nat) (w w' : WPC), l.get? j = some w →
      (l.set j w').countP p + (if p w then 1 else 0)
        = l.countP p + (if p w' then 1 else 0) := by
  intro l
  induction l with
  | nil => intro j w w' h; simp at h
  | cons a l ih =>
    intro j w w' h
    cases j with
    | zero =>
      simp at h
      subst h
      simp [List.countP_cons]
      omega
    | succ j =>
      simp at h
      have := ih j w w' (by simpa using h)
      simp [List.countP_cons]
      omega

/-- The token a worker goroutine holds is returned exactly at its exit
step. -/
theorem wstep_release_balance {task : Task} {pos : Nat} {c : Bool}
    {w w' : WPC} {e : WEff} (h : WStep task pos c w e w') :
    e.released + (if isAlive w' then 1 else 0) = if isAlive w then 1 else 0 := by
  cases h <;> simp [isAlive, WEff.zero]

theorem dInv_step {cfg : DCfg} {s s' : DState} {ev : DEv}
    (hinv : dInv cfg s) (h : DStep cfg s ev s') : dInv cfg s' := by
  cases h with
  | cancel => exact hinv
  | recvCancel =>
    simp only [dInv, drainedOf] at hinv ⊢
    omega
  | recvClosed =>
    simp only [dInv, drainedOf] at hinv ⊢
    omega
  | recv =>
    simp only [dInv, drainedOf] at hinv ⊢
    omega
  | acq =>
    simp only [dInv, drainedOf, aliveCount, List.countP_append,
      List.countP_cons, List.countP_nil, isAlive, if_true] at hinv ⊢
    omega
  | acqCancel =>
    simp only [dInv, drainedOf] at hinv ⊢
    omega
  | drainTok hlt =>
    simp only [dInv, drainedOf] at hinv ⊢
    omega
  | drainDone hge =>
    simp only [dInv, drainedOf] at hinv ⊢
    omega
  | @work j w w' e inp cnl tok mn ws out er pr hget hw =>
    have hset := countP_set_eq isAlive ws j w w' hget
    have hbal := wstep_release_balance hw
    simp only [dInv, drainedOf, aliveCount] at hinv ⊢
    omega

theorem dInv_reach {cfg : DCfg} {s s' : DState} (hinv : dInv cfg s)
    (h : DReach cfg s s') : dInv cfg s' := by
  induction h with
  | refl => exact hinv
  | tail _ hstep ih =>
    obtain ⟨ev, hstep⟩ := hstep
    exact dInv_step ih hstep

theorem dInit_inv (p : dynamicPool) (input : List Data) (cfg : DCfg)
    (hcap : cfg.cap = p.tokenPool) : dInv cfg (dInit p input) := by
  simp [dInv, dInit, aliveCount, drainedOf, hcap]

/-- Only the token-acquisition transition ever launches a worker goroutine,
and it consumes one token from the pool doing so. -/
theorem dstep_spawn_needs_token {cfg : DCfg} {s s' : DState} {ev : DEv}
    (h : DStep cfg s ev s') (hgrow : s.workers.length < s'.workers.length) :
    ∃ d, ev = .acq d ∧ s'.tokens + 1 = s.tokens := by
  cases h with
  | acq => exact ⟨_, rfl, rfl⟩
  | work hget hw => simp [List.length_set] at hgrow
  | cancel => simp at hgrow
  | recvCancel => simp at hgrow
  | recvClosed => simp at hgrow
  | recv => simp at hgrow
  | acqCancel => simp at hgrow
  | drainTok hlt => simp at hgrow
  | drainDone hge => simp at hgrow

/-- A task that consumes every item (a sink): `Process` returns `(nil, nil)`. -/
def taskSink : Task := fun _ => (none, none)

/-- A task that forwards every item unchanged. -/
def taskFwd : Task := fun d => (some d, none)

/-- A task that fails on every item. -/
def taskFail : Task := fun _ => (none, some "boom")

/-- The complete run of `dynamicPool.Run` with ceiling 1 on an already-closed
input feed: the accept loop exits at once and the drain loop swallows the
single token, returning with the pool empty. -/
theorem dReach_drain_empty :
    DReach ⟨taskSink, 0, 1⟩ (dInit ⟨taskSink, 1, 1⟩ [])
      ⟨[], false, 0, .done, [], [], [], []⟩ := by
  refine Relation.ReflTransGen.head ⟨_, DStep.recvClosed⟩ ?_
  refine Relation.ReflTransGen.head ⟨_, DStep.drainTok (by decide)⟩ ?_
  exact Relation.ReflTransGen.head ⟨_, DStep.drainDone (by decide)⟩
    Relation.ReflTransGen.refl

/-! ## Claim theorems: constructors and the dynamic pool's permit discipline -/

/-- **C6.** Each of the three stage constructors returns the no-op/nil stage
value (`none`) exactly when its parameters are invalid: `FixedPool` with
worker count ≤ 0, `DynamicPool` with ceiling ≤ 0, `Broadcast` with an empty
transform list; with valid parameters each returns a non-nil stage. -/
theorem constructors_nil_iff :
    (∀ (task : Task) (num : Int), FixedPool task num = none ↔ num ≤ 0) ∧
    (∀ (task : Task) (max : Int), DynamicPool task max = none ↔ max ≤ 0) ∧
    (∀ (tasks : List Task), Broadcast tasks = none ↔ tasks = []) := by
  refine ⟨fun task num => ?_, fun task max => ?_, fun tasks => ?_⟩
  · by_cases h : num ≤ 0 <;> simp [FixedPool, h]
  · by_cases h : max ≤ 0 <;> simp [DynamicPool, h]
  · by_cases h : tasks.length = 0 <;>
      simp [Broadcast, h, List.length_eq_zero] <;>
      simpa [List.length_eq_zero] using h

/-- **C3.** For a dynamic pool constructed with ceiling `max ≥ 1`, the permit
pool is initialized with exactly `max` permits, and in every state reachable
during `Run` the number of concurrent units simultaneously holding a permit
(live worker goroutines) is at most `max`; moreover a worker is only ever
launched by the transition that takes one permit out of the pool. -/
theorem dynamicPool_permit_invariant (task : Task) (pos : Nat) (max : Nat)
    (hmax : 1 ≤ max) (input : List Data) (s : DState)
    (hreach : DReach ⟨task, pos, max⟩ (dInit ⟨task, max, max⟩ input) s) :
    DynamicPool task (max : Int) = some ⟨task, max, max⟩ ∧
    (dInit ⟨task, max, max⟩ input).tokens = max ∧
    aliveCount s.workers ≤ max ∧
    (∀ ev s', DStep ⟨task, pos, max⟩ s ev s' →
      s.workers.length < s'.workers.length →
      ∃ d, ev = .acq d ∧ s'.tokens + 1 = s.tokens) := by
  refine ⟨?_, rfl, ?_, fun ev s' h hg => dstep_spawn_needs_token h hg⟩
  · have h0 : ¬ ((max : Int) ≤ 0) := by omega
    simp [DynamicPool, h0]
  · have hinv := dInv_reach (dInit_inv ⟨task, max, max⟩ input _ rfl) hreach
    rw [dInv] at hinv
    have hcap : (⟨task, pos, max⟩ : DCfg).cap = max := rfl
    rw [hcap] at hinv
    omega

/-- **C3 witness**: the invariant instantiated on the initial state of a
ceiling-1 pool. -/
theorem dynamicPool_permit_invariant_witness :
    DynamicPool taskSink (1 : Int) = some ⟨taskSink, 1, 1⟩ ∧
    (dInit ⟨taskSink, 1, 1⟩ []).tokens = 1 ∧
    aliveCount (dInit ⟨taskSink, 1, 1⟩ []).workers ≤ 1 ∧
    (∀ ev s', DStep ⟨taskSink, 0, 1⟩ (dInit ⟨taskSink, 1, 1⟩ []) ev s' →
      (dInit ⟨taskSink, 1, 1⟩ []).workers.length < s'.workers.length →
      ∃ d, ev = .acq d ∧ s'.tokens + 1 = (dInit ⟨taskSink, 1, 1⟩ []).tokens) :=
  dynamicPool_permit_invariant taskSink 0 1 (by decide) []
    (dInit ⟨taskSink, 1, 1⟩ []) Relation.ReflTransGen.refl

/-- **C1 counterexample.** A complete run of a ceiling-1 dynamic pool on an
already-closed input feed returns with the token pool holding 0 permits, not
1: the drain loop empties the pool and never refills it. -/
theorem dynamicPool_pool_restored_counterexample :
    DynamicPool taskSink (1 : Int) = some ⟨taskSink, 1, 1⟩ ∧
    DReach ⟨taskSink, 0, 1⟩ (dInit ⟨taskSink, 1, 1⟩ [])
      ⟨[], false, 0, .done, [], [], [], []⟩ ∧
    (⟨[], false, 0, .done, [], [], [], []⟩ : DState).main = .done ∧
    ¬ ((⟨[], false, 0, .done, [], [], [], []⟩ : DState).tokens = 1) := by
  refine ⟨by simp [DynamicPool], dReach_drain_empty, rfl, by decide⟩

/-- **C1 (amended).** After `Run` returns, the stage's concurrency state is
fully drained: the drain loop has reclaimed all `max` permits, so no
concurrent unit still holds a permit — but the permit pool is left holding
exactly 0 permits (the reclaimed permits are discarded), not `max`. -/
theorem dynamicPool_drained_on_return (task : Task) (pos : Nat) (max : Nat)
    (hmax : 1 ≤ max) (input : List Data) (s : DState)
    (hreach : DReach ⟨task, pos, max⟩ (dInit ⟨task, max, max⟩ input) s)
    (hdone : s.main = .done) :
    s.tokens = 0 ∧ aliveCount s.workers = 0 := by
  have hinv := dInv_reach (dInit_inv ⟨task, max, max⟩ input _ rfl) hreach
  rw [dInv, hdone] at hinv
  simp only [drainedOf] at hinv
  omega

/-- **C1 witness**: the amended statement evaluated on the concrete
ceiling-1 run. -/
theorem dynamicPool_drained_on_return_witness :
    (⟨[], false, 0, .done, [], [], [], []⟩ : DState).tokens = 0 ∧
    aliveCount (⟨[], false, 0, .done, [], [], [], []⟩ : DState).workers = 0 :=
  dynamicPool_drained_on_return taskSink 0 1 (by decide) []
    ⟨[], false, 0, .done, [], [], [], []⟩ dReach_drain_empty rfl

/-! ## Claim theorems: the worker goroutine's outcome paths -/

/-- **C4.** Every launched concurrent unit returns its permit to the pool
exactly once, at its completion, on every outcome path (transform failure,
success with no produced item, successful output write, output write aborted
by cancellation); an exited unit takes no further step, so the permit can
never be returned twice. -/
theorem worker_releases_once (task : Task) (pos : Nat) (d : Data) :
    (∀ (cs : List Bool) (eff : WEff),
      WPath task pos (.process d) cs eff .gone → eff.released = 1) ∧
    (∀ (c : Bool) (e : WEff) (w : WPC), ¬ WStep task pos c .gone e w) :=
  ⟨fun _ _ h => wpath_released_once h, fun _ _ _ => wstep_gone_none⟩

/-- **C4 witness**: the nil-output path of the sink task, executed
completely, releases exactly one token. -/
theorem worker_releases_once_witness :
    (WEff.add ⟨[], [], [5], 0⟩ (WEff.add ⟨[], [], [], 1⟩ WEff.zero)).released
      = 1 :=
  (worker_releases_once taskSink 0 5).1 [false, false] _
    (WPath.cons false (WStep.procNil rfl)
      (WPath.cons false WStep.releaseTok (WPath.nil _)))

/-- **C7.** When the transform fails on an item, the concurrent unit appends
exactly the error wrapped with the stage's position to the error sink and
stops: nothing is emitted downstream for that item, it is not marked
processed, and the permit is still returned. -/
theorem worker_failure_path (task : Task) (pos : Nat) (d : Data)
    (out : Option Data) (e : Err) (htask : task d = (out, some e))
    (cs : List Bool) (eff : WEff)
    (hpath : WPath task pos (.process d) cs eff .gone) :
    eff.errs = [wrapError pos e] ∧ eff.emits = [] ∧ eff.processed = [] ∧
    eff.released = 1 := by
  rw [wpath_process_err htask hpath]
  exact ⟨rfl, rfl, rfl, rfl⟩

/-- **C7 witness**: the failing task's complete path at stage position 3. -/
theorem worker_failure_path_witness :
    (WEff.add ⟨[], [wrapError 3 "boom"], [], 0⟩
        (WEff.add ⟨[], [], [], 1⟩ WEff.zero)).errs = [wrapError 3 "boom"] ∧
    (WEff.add ⟨[], [wrapError 3 "boom"], [], 0⟩
        (WEff.add ⟨[], [], [], 1⟩ WEff.zero)).emits = [] ∧
    (WEff.add ⟨[], [wrapError 3 "boom"], [], 0⟩
        (WEff.add ⟨[], [], [], 1⟩ WEff.zero)).processed = [] ∧
    (WEff.add ⟨[], [wrapError 3 "boom"], [], 0⟩
        (WEff.add ⟨[], [], [], 1⟩ WEff.zero)).released = 1 :=
  worker_failure_path taskFail 3 9 none "boom" rfl [false, true] _
    (WPath.cons false (WStep.procErr rfl)
      (WPath.cons true WStep.releaseTok (WPath.nil _)))

/-- **C8.** On success with no produced item the unit marks the input item
processed and emits nothing; on success with a produced item it attempts the
output write, and either the item is emitted or — only with cancellation
observed — the output is dropped. -/
theorem worker_success_paths (task : Task) (pos : Nat) (d : Data) :
    (∀ (cs : List Bool) (eff : WEff), task d = (none, none) →
      WPath task pos (.process d) cs eff .gone →
      eff.processed = [d] ∧ eff.emits = [] ∧ eff.errs = [] ∧
        eff.released = 1) ∧
    (∀ (o : Data) (cs : List Bool) (eff : WEff), task d = (some o, none) →
      WPath task pos (.process d) cs eff .gone →
      eff.errs = [] ∧ eff.processed = [] ∧ eff.released = 1 ∧
        (eff.emits = [o] ∨ (eff.emits = [] ∧ cs.contains true))) := by
  constructor
  · intro cs eff htask hpath
    rw [wpath_process_none htask hpath]
    exact ⟨rfl, rfl, rfl, rfl⟩
  · intro o cs eff htask hpath
    rcases wpath_process_some htask hpath with he | ⟨he, hc⟩
    · rw [he]; exact ⟨rfl, rfl, rfl, Or.inl rfl⟩
    · rw [he]; exact ⟨rfl, rfl, rfl, Or.inr ⟨rfl, hc⟩⟩

/-- **C8 witness**: the sink task's terminal path and the forwarding task's
emitting path. -/
theorem worker_success_paths_witness :
    ((WEff.add ⟨[], [], [8], 0⟩ (WEff.add ⟨[], [], [], 1⟩ WEff.zero)).processed
        = [8] ∧
      (WEff.add ⟨[], [], [8], 0⟩ (WEff.add ⟨[], [], [], 1⟩ WEff.zero)).emits
        = [] ∧
      (WEff.add ⟨[], [], [8], 0⟩ (WEff.add ⟨[], [], [], 1⟩ WEff.zero)).errs
        = [] ∧
      (WEff.add ⟨[], [], [8], 0⟩ (WEff.add ⟨[], [], [], 1⟩ WEff.zero)).released
        = 1) ∧
    ((WEff.add WEff.zero
          (WEff.add ⟨[8], [], [], 0⟩ (WEff.add ⟨[], [], [], 1⟩ WEff.zero))).errs
        = [] ∧
      (WEff.add WEff.zero
          (WEff.add ⟨[8], [], [], 0⟩
            (WEff.add ⟨[], [], [], 1⟩ WEff.zero))).processed = [] ∧
      (WEff.add WEff.zero
          (WEff.add ⟨[8], [], [], 0⟩
            (WEff.add ⟨[], [], [], 1⟩ WEff.zero))).released = 1 ∧
      ((WEff.add WEff.zero
            (WEff.add ⟨[8], [], [], 0⟩
              (WEff.add ⟨[], [], [], 1⟩ WEff.zero))).emits = [8] ∨
        ((WEff.add WEff.zero
              (WEff.add ⟨[8], [], [], 0⟩
                (WEff.add ⟨[], [], [], 1⟩ WEff.zero))).emits = [] ∧
          ([false, false, false] : List Bool).contains true))) :=
  ⟨(worker_success_paths taskSink 0 8).1 [false, false] _ rfl
      (WPath.cons false (WStep.procNil rfl)
        (WPath.cons false WStep.releaseTok (WPath.nil _))),
    (worker_success_paths taskFwd 0 8).2 8 [false, false, false] _ rfl
      (WPath.cons false (WStep.procOut rfl)
        (WPath.cons false WStep.writeOk
          (WPath.cons false WStep.releaseTok (WPath.nil _))))⟩

/-- **C9.** On the two cancellation-drop paths an item already taken from the
input feed is discarded silently: aborting the permit wait changes no
bookkeeping (no error appended, nothing marked processed, no unit launched),
and on the produced-item path nothing is ever marked processed or reported,
emitted or not; only the nil-output success step marks an item processed. -/
theorem cancellation_drop_paths :
    (∀ (cfg : DCfg) (s s' : DState) (d : Data),
      DStep cfg s (.acqCancel d) s' →
      s'.errs = s.errs ∧ s'.processed = s.processed ∧
        s'.workers = s.workers ∧ s'.output = s.output ∧
        s.cancelled = true ∧ s'.main = .drain 0) ∧
    (∀ (task : Task) (pos : Nat) (d o : Data) (cs : List Bool) (eff : WEff),
      task d = (some o, none) → WPath task pos (.process d) cs eff .gone →
      eff.processed = [] ∧ eff.errs = []) ∧
    (∀ (task : Task) (pos : Nat) (c : Bool) (w w' : WPC) (e : WEff),
      WStep task pos c w e w' → e.processed ≠ [] →
      ∃ d, w = .process d ∧ task d = (none, none) ∧ e.processed = [d]) := by
  refine ⟨?_, ?_, ?_⟩
  · intro cfg s s' d h
    cases h
    exact ⟨rfl, rfl, rfl, rfl, rfl, rfl⟩
  · intro task pos d o cs eff htask hpath
    rcases wpath_process_some htask hpath with he | ⟨he, -⟩ <;> rw [he] <;>
      exact ⟨rfl, rfl⟩
  · intro task pos c w w' e h hne
    cases h with
    | procErr h1 => exact absurd rfl hne
    | procNil h1 => exact ⟨_, rfl, h1, rfl⟩
    | procOut h1 => exact absurd rfl hne
    | writeOk => exact absurd rfl hne
    | writeCancel => exact absurd rfl hne
    | releaseTok => exact absurd rfl hne

/-- **C9 witness**: the permit-wait abort on a concrete cancelled state, and
the produced-item path of the forwarding task. -/
theorem cancellation_drop_paths_witness :
    ((⟨[], true, 0, .drain 0, [], [], [], []⟩ : DState).errs
        = (⟨[], true, 0, .acquire 7, [], [], [], []⟩ : DState).errs ∧
      (⟨[], true, 0, .drain 0, [], [], [], []⟩ : DState).processed
        = (⟨[], true, 0, .acquire 7, [], [], [], []⟩ : DState).processed ∧
      (⟨[], true, 0, .drain 0, [], [], [], []⟩ : DState).workers
        = (⟨[], true, 0, .acquire 7, [], [], [], []⟩ : DState).workers ∧
      (⟨[], true, 0, .drain 0, [], [], [], []⟩ : DState).output
        = (⟨[], true, 0, .acquire 7, [], [], [], []⟩ : DState).output ∧
      (⟨[], true, 0, .acquire 7, [], [], [], []⟩ : DState).cancelled = true ∧
      (⟨[], true, 0, .drain 0, [], [], [], []⟩ : DState).main = .drain 0) ∧
    ((WEff.add WEff.zero
          (WEff.add WEff.zero
            (WEff.add ⟨[], [], [], 1⟩ WEff.zero))).processed = [] ∧
      (WEff.add WEff.zero
          (WEff.add WEff.zero (WEff.add ⟨[], [], [], 1⟩ WEff.zero))).errs
        = []) :=
  ⟨cancellation_drop_paths.1 ⟨taskSink, 0, 1⟩
      ⟨[], true, 0, .acquire 7, [], [], [], []⟩
      ⟨[], true, 0, .drain 0, [], [], [], []⟩ 7 DStep.acqCancel,
    cancellation_drop_paths.2.1 taskFwd 0 4 4 [false, true, true] _ rfl
      (WPath.cons false (WStep.procOut rfl)
        (WPath.cons true WStep.writeCancel
          (WPath.cons true WStep.releaseTok (WPath.nil _))))⟩

/-! ## fixedPool.Run (pool.go lines 29-42) as a transition system

Each of the `n` replicas is the external FIFO stage; per the spec's adapter
contract a replica's `Run` returns when the shared input feed closes or
cancellation fires, which is all `fixedPool.Run` relies on: it spawns the
replicas and blocks in `wg.Wait()` until every one has returned. -/

/-- Program counter of `fixedPool.Run`. -/
inductive FPC where
  /-- blocked in `wg.Wait()` -/
  | waiting
  /-- `Run` has returned -/
  | done
  deriving DecidableEq, Repr

/-- State of one invocation of `fixedPool.Run` and its environment. -/
structure FState where
  /-- whether the shared input feed has been closed -/
  inputClosed : Bool
  /-- whether `ctx.Done()` is closed -/
  cancelled : Bool
  /-- whether each replica's `Run` has returned (i.e. `wg.Done()` ran) -/
  finished : List Bool
  /-- program counter of `Run` itself -/
  main : FPC

/-- Transition labels of `fixedPool.Run`. -/
inductive FEv where
  | closeInput
  | cancel
  | repFinish (j : Nat)
  | wgWait

/-- Interleaved transitions of `fixedPool.Run`, its replicas, and the
environment. -/
inductive FStep : FState → FEv → FState → Prop where
  /-- the upstream producer closes the shared input feed. -/
  | closeInput {cnl : Bool} {fin : List Bool} {mn : FPC} :
      FStep ⟨false, cnl, fin, mn⟩ .closeInput ⟨true, cnl, fin, mn⟩
  /-- the environment cancels the context. -/
  | cancel {ic : Bool} {fin : List Bool} {mn : FPC} :
      FStep ⟨ic, false, fin, mn⟩ .cancel ⟨ic, true, fin, mn⟩
  /-- replica `j` returns (allowed once its input is closed or cancellation
  fired, per the FIFO contract) and runs `wg.Done()`. -/
  | repFinish {ic cnl : Bool} {fin : List Bool} {mn : FPC} {j : Nat} :
      fin.get? j = some false → (ic || cnl) = true →
      FStep ⟨ic, cnl, fin, mn⟩ (.repFinish j) ⟨ic, cnl, fin.set j true, mn⟩
  /-- `wg.Wait()` unblocks only when every replica has run `wg.Done()`. -/
  | wgWait {ic cnl : Bool} {fin : List Bool} :
      fin.all (fun b => b) = true →
      FStep ⟨ic, cnl, fin, .waiting⟩ .wgWait ⟨ic, cnl, fin, .done⟩

/-- Reachability under interleaved steps. -/
def FReach : FState → FState → Prop :=
  Relation.ReflTransGen (fun s s' => ∃ ev, FStep s ev s')

/-- Initial state of `p.Run(ctx, params)`: all replicas spawned and running,
`Run` blocked in `wg.Wait()`. -/
def fInit (p : fixedPool) : FState :=
  ⟨false, false, p.fifos.map (fun _ => false), .waiting⟩

theorem all_no_false {fin : List Bool} {j : Nat}
    (hall : fin.all (fun b => b) = true) (hget : fin.get? j = some false) :
    False := by
  rw [List.all_eq_true] at hall
  have hmem : false ∈ fin := List.get?_mem hget
  simpa using hall false hmem

/-- `fixedPool.Run` can only have returned with every replica finished. -/
def fDoneInv (s : FState) : Prop :=
  s.main = .done → s.finished.all (fun b => b) = true

theorem fDoneInv_step {s s' : FState} {ev : FEv} (hinv : fDoneInv s)
    (h : FStep s ev s') : fDoneInv s' := by
  cases h with
  | closeInput => exact hinv
  | cancel => exact hinv
  | repFinish hget hen =>
    intro hdone
    exact absurd (all_no_false (hinv hdone) hget) (fun hf => hf)
  | wgWait hall => intro _; exact hall

theorem fDoneInv_reach {s s' : FState} (hinv : fDoneInv s)
    (h : FReach s s') : fDoneInv s' := by
  induction h with
  | refl => exact hinv
  | tail _ hstep ih =>
    obtain ⟨ev, hstep⟩ := hstep
    exact fDoneInv_step ih hstep

/-! ## broadcast.Run (bcast.go lines 28-82) as a transition system

The replicas themselves are external FIFO stages; what is modelled is the
main loop's fan-out with its clone discipline (lines 59-73), the close of
every dedicated input channel, and the `wg.Wait()` join.  The `for` loop
closing the `n` channels has no intermediate state any claim can observe, so
it is a single `closeFeeds` transition. -/

/-- Program counter of `broadcast.Run`. -/
inductive BPC where
  /-- head of the read loop: `select` on `ctx.Done()` / `sp.Input()` -/
  | loop
  /-- fanning an item out: next delivery goes to replica `i` (counting down) -/
  | fanout (d : Data) (i : Nat)
  /-- out of the loop, about to `close` the replicas' input channels -/
  | closing
  /-- blocked in `wg.Wait()` -/
  | waitRep
  /-- `Run` has returned -/
  | done
  deriving DecidableEq, Repr

/-- State of one invocation of `broadcast.Run` and its environment. -/
structure BState where
  /-- items still to be delivered by the shared input feed -/
  input : List Data
  /-- whether `ctx.Done()` is closed -/
  cancelled : Bool
  /-- program counter of `Run` itself -/
  main : BPC
  /-- allocation counter: clones get fresh references from here -/
  ctr : Nat
  /-- log of `inCh[i] <- fifoData` deliveries `(replica index, reference)` -/
  delivered : List (Nat × Data)
  /-- whether each replica's `Run` has returned -/
  finished : List Bool
  /-- whether the replicas' input channels have been closed -/
  allClosed : Bool

/-- Transition labels of `broadcast.Run`. -/
inductive BEv where
  | cancel
  | recvCancel
  | recvClosed
  | recv (d : Data)
  | send (i : Nat) (r : Data)
  | fanAbort (d : Data) (i : Nat)
  | closeFeeds
  | repFinish (j : Nat)
  | wgWait

/-- Interleaved transitions of `broadcast.Run` (with `n` replicas), its
replicas, and the environment. -/
inductive BStep (n : Nat) : BState → BEv → BState → Prop where
  /-- the environment cancels the context. -/
  | cancel {inp : List Data} {mn : BPC} {ctr : Nat}
      {dl : List (Nat × Data)} {fin : List Bool} {ac : Bool} :
      BStep n ⟨inp, false, mn, ctr, dl, fin, ac⟩ .cancel
        ⟨inp, true, mn, ctr, dl, fin, ac⟩
  /-- read loop: `case <-ctx.Done(): break loop`. -/
  | recvCancel {inp : List Data} {ctr : Nat} {dl : List (Nat × Data)}
      {fin : List Bool} {ac : Bool} :
      BStep n ⟨inp, true, .loop, ctr, dl, fin, ac⟩ .recvCancel
        ⟨inp, true, .closing, ctr, dl, fin, ac⟩
  /-- read loop: `case data, ok := <-sp.Input()` with `ok = false`. -/
  | recvClosed {cnl : Bool} {ctr : Nat} {dl : List (Nat × Data)}
      {fin : List Bool} {ac : Bool} :
      BStep n ⟨[], cnl, .loop, ctr, dl, fin, ac⟩ .recvClosed
        ⟨[], cnl, .closing, ctr, dl, fin, ac⟩
  /-- read loop: an item arrives; the fan-out `for` loop starts at index
  `len(b.fifos) - 1`. -/
  | recv {d : Data} {rest : List Data} {cnl : Bool} {ctr : Nat}
      {dl : List (Nat × Data)} {fin : List Bool} {ac : Bool} :
      BStep n ⟨d :: rest, cnl, .loop, ctr, dl, fin, ac⟩ (.recv d)
        ⟨rest, cnl, .fanout d (n - 1), ctr, dl, fin, ac⟩
  /-- `case inCh[i] <- fifoData`: replica `i` gets the original reference if
  `i == 0` and a fresh clone (`data.Clone()`) otherwise; the loop counter
  steps down and exits after index 0. -/
  | send {d : Data} {i : Nat} {inp : List Data} {cnl : Bool} {ctr : Nat}
      {dl : List (Nat × Data)} {fin : List Bool} {ac : Bool} :
      BStep n ⟨inp, cnl, .fanout d i, ctr, dl, fin, ac⟩
        (.send i (if i = 0 then d else ctr))
        ⟨inp, cnl, (if i = 0 then .loop else .fanout d (i - 1)),
          (if i = 0 then ctr else ctr + 1),
          dl ++ [(i, if i = 0 then d else ctr)], fin, ac⟩
  /-- `case <-ctx.Done(): break loop` in mid-fan-out: the whole read loop is
  aborted (the clone just made, if any, is dropped unobserved). -/
  | fanAbort {d : Data} {i : Nat} {inp : List Data} {ctr : Nat}
      {dl : List (Nat × Data)} {fin : List Bool} {ac : Bool} :
      BStep n ⟨inp, true, .fanout d i, ctr, dl, fin, ac⟩ (.fanAbort d i)
        ⟨inp, true, .closing, ctr, dl, fin, ac⟩
  /-- `for _, ch := range inCh { close(ch) }`. -/
  | closeFeeds {inp : List Data} {cnl : Bool} {ctr : Nat}
      {dl : List (Nat × Data)} {fin : List Bool} :
      BStep n ⟨inp, cnl, .closing, ctr, dl, fin, false⟩ .closeFeeds
        ⟨inp, cnl, .waitRep, ctr, dl, fin, true⟩
  /-- replica `j` returns (its private input feed is closed, or cancellation
  fired) and runs `wg.Done()`. -/
  | repFinish {j : Nat} {inp : List Data} {cnl : Bool} {mn : BPC} {ctr : Nat}
      {dl : List (Nat × Data)} {fin : List Bool} {ac : Bool} :
      fin.get? j = some false → (ac || cnl) = true →
      BStep n ⟨inp, cnl, mn, ctr, dl, fin, ac⟩ (.repFinish j)
        ⟨inp, cnl, mn, ctr, dl, fin.set j true, ac⟩
  /-- `wg.Wait()` unblocks only when every replica has run `wg.Done()`. -/
  | wgWait {inp : List Data} {cnl : Bool} {ctr : Nat}
      {dl : List (Nat × Data)} {fin : List Bool} :
      fin.all (fun b => b) = true →
      BStep n ⟨inp, cnl, .waitRep, ctr, dl, fin, true⟩ .wgWait
        ⟨inp, cnl, .done, ctr, dl, fin, true⟩

/-- Reachability under interleaved steps. -/
def BReach (n : Nat) : BState → BState → Prop :=
  Relation.ReflTransGen (fun s s' => ∃ ev, BStep n s ev s')

/-- Initial state of `b.Run(ctx, sp)`: all replicas spawned with their fresh
private channels, `Run` entering the read loop; `ctr₀` is any reference
strictly above every reference already live in the pipeline. -/
def bInit (b : broadcast) (input : List Data) (ctr₀ : Nat) : BState :=
  ⟨input, false, .loop, ctr₀, [], b.fifos.map (fun _ => false), false⟩

/-- Sub-relation of `BStep`: only the fan-out delivery steps. -/
def FanSteps (n : Nat) : BState → BState → Prop :=
  Relation.ReflTransGen (fun s s' => ∃ i r, BStep n s (.send i r) s')

/-- The deliveries of one complete fan-out of item `d` from replica index `i`
down to 0, with clones drawn from `ctr` (bcast.go lines 59-73). -/
def sendList (d : Data) (ctr : Nat) : Nat → List (Nat × Data)
  | 0 => [(0, d)]
  | i + 1 => (i + 1, ctr) :: sendList d (ctr + 1) i

/-- `[i, i-1, ..., 1, 0]`. -/
def descList : Nat → List Nat
  | 0 => [0]
  | i + 1 => (i + 1) :: descList i

theorem sendList_map_fst (d : Data) :
    ∀ (i ctr : Nat), (sendList d ctr i).map Prod.fst = descList i := by
  intro i
  induction i with
  | zero => intro ctr; simp [sendList, descList]
  | succ i ih => intro ctr; simp [sendList, descList, ih]

theorem sendList_mem_eq (d : Nat) :
    ∀ (i ctr k r : Nat), (k, r) ∈ sendList d ctr i →
      (k = 0 ∧ r = d) ∨ (1 ≤ k ∧ k ≤ i ∧ r + k = ctr + i) := by
  intro i
  induction i with
  | zero =>
    intro ctr k r hmem
    simp [sendList] at hmem
    exact Or.inl ⟨hmem.1, hmem.2⟩
  | succ i ih =>
    intro ctr k r hmem
    simp only [sendList, List.mem_cons] at hmem
    rcases hmem with heq | hmem
    · obtain ⟨hk, hr⟩ := Prod.mk.injEq .. ▸ heq
      right
      omega
    · rcases ih (ctr + 1) k r hmem with ⟨hk, hr⟩ | ⟨hk1, hki, hr⟩
      · exact Or.inl ⟨hk, hr⟩
      · right; omega

theorem sendList_ref_inj (d : Nat) {i ctr k r k' r' : Nat} (hd : d < ctr)
    (hmem : (k, r) ∈ sendList d ctr i) (hmem' : (k', r') ∈ sendList d ctr i)
    (hkk : k ≠ k') : r ≠ r' := by
  rcases sendList_mem_eq d i ctr k r hmem with ⟨hk, hr⟩ | ⟨hk1, hki, hr⟩
  · rcases sendList_mem_eq d i ctr k' r' hmem' with ⟨hk', hr'⟩ | ⟨hk1', hki', hr'⟩
    · omega
    · omega
  · rcases sendList_mem_eq d i ctr k' r' hmem' with ⟨hk', hr'⟩ | ⟨hk1', hki', hr'⟩
    · omega
    · omega

/-- Reference freshness: the clone counter sits strictly above every
reference still to arrive on the input feed and above the reference of the
item currently being fanned out. -/
def bFresh (s : BState) : Prop :=
  (∀ x : Nat, x ∈ s.input → x < s.ctr) ∧
  (∀ d i : Nat, s.main = .fanout d i → d < s.ctr)

theorem bFresh_step {n : Nat} {s s' : BState} {ev : BEv}
    (hf : bFresh s) (h : BStep n s ev s') : bFresh s' := by
  obtain ⟨hin, hfan⟩ := hf
  cases h with
  | cancel => exact ⟨hin, hfan⟩
  | recvCancel =>
    exact ⟨hin, by intro d i hm; simp at hm⟩
  | recvClosed =>
    exact ⟨hin, by intro d i hm; simp at hm⟩
  | recv =>
    rename_i d rest cnl ctr dl fin ac
    refine ⟨fun x hx => hin x (by simp [hx]), ?_⟩
    intro d' i' hm
    have hm' : BPC.fanout d (n - 1) = BPC.fanout d' i' := hm
    injection hm' with h1 h2
    exact h1 ▸ hin d (by simp)
  | send =>
    rename_i d i inp cnl ctr dl fin ac
    have hd : d < ctr := hfan d i rfl
    constructor
    · intro x hx
      have hx' : x < ctr := hin x hx
      show x < (if i = 0 then ctr else ctr + 1)
      split <;> omega
    · intro d' i' hm
      have hm' : (if i = 0 then BPC.loop else BPC.fanout d (i - 1))
          = BPC.fanout d' i' := hm
      show d' < (if i = 0 then ctr else ctr + 1)
      by_cases hi : i = 0
      · rw [if_pos hi] at hm'
        simp at hm'
      · rw [if_neg hi] at hm'
        injection hm' with h1 h2
        have hd' : d' < ctr := h1 ▸ hd
        rw [if_neg hi]
        omega
  | fanAbort =>
    exact ⟨hin, by intro d i hm; simp at hm⟩
  | closeFeeds =>
    exact ⟨hin, by intro d i hm; simp at hm⟩
  | repFinish hget hen => exact ⟨hin, hfan⟩
  | wgWait hall =>
    exact ⟨hin, by intro d i hm; simp at hm⟩

theorem bFresh_reach {n : Nat} {s s' : BState} (hf : bFresh s)
    (h : BReach n s s') : bFresh s' := by
  induction h with
  | refl => exact hf
  | tail _ hstep ih =>
    obtain ⟨ev, hstep⟩ := hstep
    exact bFresh_step ih hstep

/-- No delivery step starts from the loop head: a `FanSteps` run from the
loop head is empty. -/
theorem fanSteps_loop {n : Nat} {s s' : BState} (h : FanSteps n s s')
    (hm : s.main = .loop) : s' = s := by
  rcases Relation.ReflTransGen.cases_head h with rfl | ⟨c, ⟨i, r, hstep⟩, htail⟩
  · rfl
  · cases hstep
    simp at hm

/-- Running the fan-out loop of item `d` from index `i` down to the loop head
delivers exactly `sendList d s.ctr i`, appended to the log in order. -/
theorem fanSteps_complete {n : Nat} :
    ∀ (i : Nat) (d : Data) (s s' : BState), s.main = .fanout d i →
      FanSteps n s s' → s'.main = .loop →
      s'.delivered = s.delivered ++ sendList d s.ctr i := by
  intro i
  induction i with
  | zero =>
    intro d s s' hm hfan hloop
    rcases Relation.ReflTransGen.cases_head hfan with rfl | ⟨c, ⟨i', r', hstep⟩, htail⟩
    · rw [hm] at hloop; simp at hloop
    · cases hstep
      rename_i d0 inp cnl ctr dl fin ac
      have hm' : BPC.fanout d0 i' = BPC.fanout d 0 := hm
      injection hm' with h1 h2
      subst h1
      subst h2
      have hc := fanSteps_loop htail rfl
      subst hc
      simp [sendList]
  | succ i ih =>
    intro d s s' hm hfan hloop
    rcases Relation.ReflTransGen.cases_head hfan with rfl | ⟨c, ⟨i', r', hstep⟩, htail⟩
    · rw [hm] at hloop; simp at hloop
    · cases hstep
      rename_i d0 inp cnl ctr dl fin ac
      have hm' : BPC.fanout d0 i' = BPC.fanout d (i + 1) := hm
      injection hm' with h1 h2
      have hc := ih d0 _ s'
        (show (if i' = 0 then BPC.loop else BPC.fanout d0 (i' - 1))
            = BPC.fanout d0 i by rw [h2]; simp) htail hloop
      rw [hc]
      simp [sendList, h1, h2]

/-- `broadcast.Run` can only be in or past `wg.Wait()` with the replicas'
input channels all closed, and can only have returned with every replica
finished. -/
def bDoneInv (s : BState) : Prop :=
  ((s.main = .waitRep ∨ s.main = .done) → s.allClosed = true) ∧
  (s.main = .done → s.finished.all (fun b => b) = true)

theorem bDoneInv_step {n : Nat} {s s' : BState} {ev : BEv}
    (hinv : bDoneInv s) (h : BStep n s ev s') : bDoneInv s' := by
  obtain ⟨hac, hfin⟩ := hinv
  cases h with
  | cancel => exact ⟨hac, hfin⟩
  | recvCancel =>
    exact ⟨by intro hm; rcases hm with hm | hm <;> simp at hm,
      by intro hm; simp at hm⟩
  | recvClosed =>
    exact ⟨by intro hm; rcases hm with hm | hm <;> simp at hm,
      by intro hm; simp at hm⟩
  | recv =>
    exact ⟨by intro hm; rcases hm with hm | hm <;> simp at hm,
      by intro hm; simp at hm⟩
  | send =>
    rename_i d i inp cnl ctr dl fin ac
    constructor
    · intro hm
      rcases hm with hm | hm
      · have hm2 : (if i = 0 then BPC.loop else BPC.fanout d (i - 1))
            = BPC.waitRep := hm
        split at hm2 <;> simp at hm2
      · have hm2 : (if i = 0 then BPC.loop else BPC.fanout d (i - 1))
            = BPC.done := hm
        split at hm2 <;> simp at hm2
    · intro hm
      have hm2 : (if i = 0 then BPC.loop else BPC.fanout d (i - 1))
          = BPC.done := hm
      split at hm2 <;> simp at hm2
  | fanAbort =>
    exact ⟨by intro hm; rcases hm with hm | hm <;> simp at hm,
      by intro hm; simp at hm⟩
  | closeFeeds =>
    exact ⟨fun _ => rfl, by intro hm; simp at hm⟩
  | repFinish hget hen =>
    refine ⟨hac, ?_⟩
    intro hm
    exact absurd (all_no_false (hfin hm) hget) (fun hf => hf)
  | wgWait hall => exact ⟨fun _ => rfl, fun _ => hall⟩

theorem bDoneInv_reach {n : Nat} {s s' : BState} (hinv : bDoneInv s)
    (h : BReach n s s') : bDoneInv s' := by
  induction h with
  | refl => exact hinv
  | tail _ hstep ih =>
    obtain ⟨ev, hstep⟩ := hstep
    exact bDoneInv_step ih hstep

/-! ## Claim theorems: broadcast fan-out, shutdown joins, replica contexts -/

/-- **C2.** For an item `d` the fan-out loop delivers once to every replica,
iterating from the highest index down to 0: the log grows by exactly
`sendList d ctr (n-1)`, whose indices are `n-1, ..., 1, 0` in order; replica
0 receives the original reference `d`, every replica of index ≥ 1 receives a
fresh clone, all references pairwise distinct across branches — so mutating
the payload behind one branch's reference never changes another branch's
payload. -/
theorem broadcast_copy_discipline (tasks : List Task) (b : broadcast)
    (hb : Broadcast tasks = some b) (input : List Data) (ctr₀ : Nat)
    (hin : ∀ x : Nat, x ∈ input → x < ctr₀) (d : Nat) (s s' : BState)
    (hreach : BReach b.fifos.length (bInit b input ctr₀) s)
    (hm : s.main = .fanout d (b.fifos.length - 1))
    (hfan : FanSteps b.fifos.length s s')
    (hloop : s'.main = .loop) :
    s'.delivered = s.delivered ++ sendList d s.ctr (b.fifos.length - 1) ∧
    (sendList d s.ctr (b.fifos.length - 1)).map Prod.fst
      = descList (b.fifos.length - 1) ∧
    (∀ k r : Nat, (k, r) ∈ sendList d s.ctr (b.fifos.length - 1) →
      (k = 0 → r = d) ∧ (1 ≤ k → d < r)) ∧
    (∀ k r k' r' : Nat, (k, r) ∈ sendList d s.ctr (b.fifos.length - 1) →
      (k', r') ∈ sendList d s.ctr (b.fifos.length - 1) → k ≠ k' → r ≠ r') ∧
    (∀ (h : Heap) (v : Nat) (k r k' r' : Nat),
      (k, r) ∈ sendList d s.ctr (b.fifos.length - 1) →
      (k', r') ∈ sendList d s.ctr (b.fifos.length - 1) → k ≠ k' →
      hwrite h r v r' = h r') := by
  have hfr : bFresh s := by
    refine bFresh_reach ⟨?_, ?_⟩ hreach
    · intro x hx
      exact hin x hx
    · intro dd ii hmm
      simp [bInit] at hmm
  have hd : d < s.ctr := hfr.2 d _ hm
  have hdel := fanSteps_complete _ d s s' hm hfan hloop
  refine ⟨hdel, sendList_map_fst d _ _, ?_, ?_, ?_⟩
  · intro k r hmem
    rcases sendList_mem_eq d _ _ k r hmem with ⟨hk, hr⟩ | ⟨hk1, hki, hr⟩
    · exact ⟨fun _ => hr, fun hge => by omega⟩
    · exact ⟨fun hk0 => by omega, fun _ => by omega⟩
  · intro k r k' r' hmem hmem' hkk
    exact sendList_ref_inj d hd hmem hmem' hkk
  · intro h v k r k' r' hmem hmem' hkk
    have hne : r' ≠ r := sendList_ref_inj d hd hmem' hmem (Ne.symm hkk)
    simp [hwrite, hne]

/-- A broadcast stage over two sink transforms, for concrete runs. -/
def bDemo : broadcast := ⟨[FIFO taskSink, FIFO taskSink]⟩

/-- Mid-run state of `bDemo.Run` on input `[5]` right after receiving item 5
(fan-out about to start at replica index 1). -/
def bS1 : BState := ⟨[], false, .fanout 5 1, 6, [], [false, false], false⟩

/-- State of the same run after the complete fan-out of item 5. -/
def bS2 : BState := ⟨[], false, .loop, 7, [(1, 6), (0, 5)], [false, false], false⟩

/-- **C2 witness**: the two-replica broadcast fanning out item 5 with clone
counter 6 delivers `[(1, 6), (0, 5)]`. -/
theorem broadcast_copy_discipline_witness :
    bS2.delivered = bS1.delivered ++ sendList 5 bS1.ctr (bDemo.fifos.length - 1) ∧
    (sendList 5 bS1.ctr (bDemo.fifos.length - 1)).map Prod.fst
      = descList (bDemo.fifos.length - 1) ∧
    (∀ k r : Nat, (k, r) ∈ sendList 5 bS1.ctr (bDemo.fifos.length - 1) →
      (k = 0 → r = 5) ∧ (1 ≤ k → 5 < r)) ∧
    (∀ k r k' r' : Nat, (k, r) ∈ sendList 5 bS1.ctr (bDemo.fifos.length - 1) →
      (k', r') ∈ sendList 5 bS1.ctr (bDemo.fifos.length - 1) → k ≠ k' → r ≠ r') ∧
    (∀ (h : Heap) (v : Nat) (k r k' r' : Nat),
      (k, r) ∈ sendList 5 bS1.ctr (bDemo.fifos.length - 1) →
      (k', r') ∈ sendList 5 bS1.ctr (bDemo.fifos.length - 1) → k ≠ k' →
      hwrite h r v r' = h r') :=
  broadcast_copy_discipline [taskSink, taskSink] bDemo rfl [5] 6
    (by intro x hx; simp at hx; omega) 5 bS1 bS2
    (Relation.ReflTransGen.single ⟨BEv.recv 5, BStep.recv⟩)
    rfl
    (Relation.ReflTransGen.head ⟨1, 6, BStep.send⟩
      (Relation.ReflTransGen.head ⟨0, 5, BStep.send⟩ Relation.ReflTransGen.refl))
    rfl

/-- **C5.** Each stage's `Run` returns only after all of its own concurrent
sub-work has completed: the fixed pool's `wg.Wait()` means it is `done` only
with every replica's `Run` returned; the dynamic pool is `done` only with
all `max` permits reclaimed (pool empty and no live worker); the broadcast
stage is `done` only with every replica's private input channel closed and
every replica's `Run` returned. -/
theorem run_returns_after_subwork :
    (∀ (p : fixedPool) (s : FState), FReach (fInit p) s → s.main = .done →
      s.finished.all (fun x => x) = true) ∧
    (∀ (task : Task) (pos max : Nat) (input : List Data) (s : DState),
      DReach ⟨task, pos, max⟩ (dInit ⟨task, max, max⟩ input) s →
      s.main = .done → s.tokens = 0 ∧ aliveCount s.workers = 0) ∧
    (∀ (b : broadcast) (input : List Data) (ctr₀ : Nat) (s : BState),
      BReach b.fifos.length (bInit b input ctr₀) s → s.main = .done →
      s.allClosed = true ∧ s.finished.all (fun x => x) = true) := by
  refine ⟨?_, ?_, ?_⟩
  · intro p s hreach hdone
    exact fDoneInv_reach (fun h => by simp [fInit] at h) hreach hdone
  · intro task pos max input s hreach hdone
    have hinv := dInv_reach (dInit_inv ⟨task, max, max⟩ input _ rfl) hreach
    rw [dInv, hdone] at hinv
    simp only [drainedOf] at hinv
    omega
  · intro b input ctr₀ s hreach hdone
    have hinv := bDoneInv_reach
      ⟨fun h => by rcases h with h | h <;> simp [bInit] at h,
        fun h => by simp [bInit] at h⟩ hreach
    exact ⟨hinv.1 (Or.inr hdone), hinv.2 hdone⟩

/-- A complete run of a one-replica fixed pool: close the input, let the
replica return, pass `wg.Wait()`. -/
theorem fReach_demo :
    FReach (fInit ⟨[FIFO taskSink]⟩) ⟨true, false, [true], .done⟩ := by
  show FReach ⟨false, false, [false], .waiting⟩ ⟨true, false, [true], .done⟩
  refine Relation.ReflTransGen.head ⟨_, FStep.closeInput⟩ ?_
  refine Relation.ReflTransGen.head ⟨FEv.repFinish 0, FStep.repFinish rfl rfl⟩ ?_
  exact Relation.ReflTransGen.head ⟨_, FStep.wgWait rfl⟩ Relation.ReflTransGen.refl

/-- A complete run of a one-replica broadcast on an already-closed input:
exit the loop, close the replica channel, join, return. -/
theorem bReach_demo :
    BReach (⟨[FIFO taskSink]⟩ : broadcast).fifos.length
      (bInit ⟨[FIFO taskSink]⟩ [] 0) ⟨[], false, .done, 0, [], [true], true⟩ := by
  show BReach 1 ⟨[], false, .loop, 0, [], [false], false⟩
    ⟨[], false, .done, 0, [], [true], true⟩
  refine Relation.ReflTransGen.head ⟨_, BStep.recvClosed⟩ ?_
  refine Relation.ReflTransGen.head ⟨_, BStep.closeFeeds⟩ ?_
  refine Relation.ReflTransGen.head ⟨BEv.repFinish 0, BStep.repFinish rfl rfl⟩ ?_
  exact Relation.ReflTransGen.head ⟨_, BStep.wgWait rfl⟩ Relation.ReflTransGen.refl

/-- **C5 witness**: the three joins evaluated on concrete completed runs. -/
theorem run_returns_after_subwork_witness :
    ((⟨true, false, [true], .done⟩ : FState).finished.all (fun x => x)
      = true) ∧
    ((⟨[], false, 0, .done, [], [], [], []⟩ : DState).tokens = 0 ∧
      aliveCount (⟨[], false, 0, .done, [], [], [], []⟩ : DState).workers = 0) ∧
    ((⟨[], false, .done, 0, [], [true], true⟩ : BState).allClosed = true ∧
      (⟨[], false, .done, 0, [], [true], true⟩ : BState).finished.all
        (fun x => x) = true) :=
  ⟨run_returns_after_subwork.1 ⟨[FIFO taskSink]⟩ _ fReach_demo rfl,
    run_returns_after_subwork.2.1 taskSink 0 1 [] _ dReach_drain_empty rfl,
    run_returns_after_subwork.2.2 ⟨[FIFO taskSink]⟩ [] 0 _ bReach_demo rfl⟩

/-- Feed identifiers: feeds supplied from outside a stage versus the
dedicated `make(chan Data)` channels `broadcast.Run` creates, one per
replica; a freshly created channel is distinct from every pre-existing
one. -/
inductive Feed where
  | outer (id : Nat)
  | replicaFeed (i : Nat)
  deriving DecidableEq, Repr

/-- Modelled from the spec: the stage context bundles "an input feed, an
output feed, an error sink, and the stage's position index".  The
repository's `params` struct (declared outside this core) carries exactly
these as the fields `stage`, `inCh`, `outCh`, `errQueue`, returned by the
accessors `Position`, `Input`, `Output`, `Error`. -/
structure StageParams where
  stage : Nat
  inCh : Feed
  outCh : Feed
  errQueue : Nat

/-- bcast.go lines 38-43: the stage context built for replica `fifoIndex`:
the parent's position, output channel and error queue together with the
replica's own dedicated input channel. -/
def fifoParams (sp : StageParams) (fifoIndex : Nat) : StageParams :=
  ⟨sp.stage, .replicaFeed fifoIndex, sp.outCh, sp.errQueue⟩

/-- Modelled from the spec: the sequential adapter "reports transform
failures to the error sink annotated with stage position", wrapping with the
position carried by its own stage context. -/
def fifoAnnotate (p : StageParams) (e : Err) : Err := wrapError p.stage e

/-- **C10.** Every broadcast replica runs with a stage context carrying the
broadcast stage's own position and shared error sink and output feed; it
differs from the parent context only in its input feed, which is private to
the replica (distinct per replica and not any outside feed); consequently a
transform failure in any branch is annotated with the broadcast stage's
position, not a per-branch index. -/
theorem broadcast_replica_context (sp : StageParams) (i j : Nat) (hij : i ≠ j)
    (e : Err) :
    (fifoParams sp i).stage = sp.stage ∧
    (fifoParams sp i).outCh = sp.outCh ∧
    (fifoParams sp i).errQueue = sp.errQueue ∧
    (fifoParams sp i).inCh = .replicaFeed i ∧
    (fifoParams sp i).inCh ≠ (fifoParams sp j).inCh ∧
    (∀ id, (fifoParams sp i).inCh ≠ .outer id) ∧
    fifoAnnotate (fifoParams sp i) e = wrapError sp.stage e := by
  refine ⟨rfl, rfl, rfl, rfl, ?_, ?_, rfl⟩
  · show Feed.replicaFeed i ≠ Feed.replicaFeed j
    intro hcon
    injection hcon with h
    exact hij h
  · intro id
    show Feed.replicaFeed i ≠ Feed.outer id
    intro hcon
    cases hcon

/-- **C10 witness**: the context of replicas 0 and 1 under a parent context
at position 4. -/
theorem broadcast_replica_context_witness :
    (fifoParams ⟨4, .outer 0, .outer 1, 2⟩ 0).stage
      = (⟨4, .outer 0, .outer 1, 2⟩ : StageParams).stage ∧
    (fifoParams ⟨4, .outer 0, .outer 1, 2⟩ 0).outCh
      = (⟨4, .outer 0, .outer 1, 2⟩ : StageParams).outCh ∧
    (fifoParams ⟨4, .outer 0, .outer 1, 2⟩ 0).errQueue
      = (⟨4, .outer 0, .outer 1, 2⟩ : StageParams).errQueue ∧
    (fifoParams ⟨4, .outer 0, .outer 1, 2⟩ 0).inCh = .replicaFeed 0 ∧
    (fifoParams ⟨4, .outer 0, .outer 1, 2⟩ 0).inCh
      ≠ (fifoParams ⟨4, .outer 0, .outer 1, 2⟩ 1).inCh ∧
    (∀ id, (fifoParams ⟨4, .outer 0, .outer 1, 2⟩ 0).inCh ≠ .outer id) ∧
    fifoAnnotate (fifoParams ⟨4, .outer 0, .outer 1, 2⟩ 0) "boom"
      = wrapError (⟨4, .outer 0, .outer 1, 2⟩ : StageParams).stage "boom" :=
  broadcast_replica_context ⟨4, .outer 0, .outer 1, 2⟩ 0 1 (by decide) "boom"
